import Mathlib

/-!
Verification of the streaming chunker, model-name resolution,
configuration resolution, and streaming translation driver of
`german_translator_cli/translate_cli.py`.

Text is modelled as `List Char` (Python reads the file in text mode;
`f.read(n)` returns up to `n` characters, modelled as `List.take n`).
Python generators are modelled as functions returning the list of all
yielded values.  Loops whose Python termination is by input exhaustion
are written with an explicit fuel argument that is structurally
decreasing; the fuel is instantiated with the input length, which is
always sufficient (each iteration consumes at least one character), so
the fuel-exhaustion branch coincides with the loop's own exit branch.
-/

/-- `buffer.rfind('\n')`: index of the last newline in the buffer,
`none` when there is none (Python returns `-1`). -/
def rfindNewline : List Char → Option Nat
  | [] => none
  | c :: rest =>
    match rfindNewline rest with
    | some i => some (i + 1)
    | none => if c = '\n' then some 0 else none

/-- One post-append step of the loop body of `read_in_chunks`
(lines 102-109): after `buffer += chunk`, if the buffer holds a newline,
emit everything up to and including the last newline and keep the rest;
otherwise, if `len(buffer) > 2 * chunk_size`, emit exactly `chunk_size`
characters; otherwise emit nothing.  Returns (emitted chunks, new buffer). -/
def chunkStep (chunk_size : Nat) (buffer : List Char) : List (List Char) × List Char :=
  match rfindNewline buffer with
  | some i => ([buffer.take (i + 1)], buffer.drop (i + 1))
  | none =>
    if 2 * chunk_size < buffer.length then
      ([buffer.take chunk_size], buffer.drop chunk_size)
    else
      ([], buffer)

/-- The `while True` loop of `read_in_chunks` (lines 97-110): read a block
of `chunk_size` characters; if empty, exit the loop and yield the buffer;
else append it to the buffer and run the step.  `fuel` is the structural
bound; with `fuel ≥ rest.length` the fuel-zero branch is only reached with
`rest = []`, where it agrees with the loop exit. -/
def chunksAuxF (chunk_size : Nat) : Nat → List Char → List Char → List (List Char)
  | 0, _, buffer => [buffer]
  | fuel + 1, rest, buffer =>
    if rest.take chunk_size = [] then [buffer]
    else
      (chunkStep chunk_size (buffer ++ rest.take chunk_size)).1 ++
        chunksAuxF chunk_size fuel (rest.drop chunk_size)
          (chunkStep chunk_size (buffer ++ rest.take chunk_size)).2

/-- `read_in_chunks(file_path, chunk_size)` (lines 93-113) on a readable
source whose decoded content is `text`: the list of yielded chunks. -/
def read_in_chunks (text : List Char) (chunk_size : Nat) : List (List Char) :=
  chunksAuxF chunk_size text.length text []

-- Basic facts about `rfindNewline`.

theorem rfindNewline_eq_none_iff (l : List Char) : rfindNewline l = none ↔ '\n' ∉ l := by
  induction l with
  | nil => simp [rfindNewline]
  | cons c rest ih =>
    simp only [rfindNewline]
    cases h : rfindNewline rest with
    | some i =>
      simp only [List.mem_cons]
      constructor
      · intro hc; cases hc
      · intro hc
        exact absurd (ih.mpr fun hm => hc (Or.inr hm)) (by simp [h])
    | none =>
      have hrest : '\n' ∉ rest := ih.mp h
      by_cases hc : c = '\n' <;> simp [hc, hrest, eq_comm]

theorem rfindNewline_get (l : List Char) (i : Nat) (h : rfindNewline l = some i) :
    l.get? i = some '\n' := by
  induction l generalizing i with
  | nil => simp [rfindNewline] at h
  | cons c rest ih =>
    simp only [rfindNewline] at h
    cases hr : rfindNewline rest with
    | some j =>
      rw [hr] at h
      simp only [Option.some.injEq] at h
      subst h
      simpa using ih j hr
    | none =>
      rw [hr] at h
      by_cases hc : c = '\n'
      · rw [if_pos hc] at h
        injection h with h
        subst h
        simp [hc]
      · simp [hc] at h

theorem rfindNewline_last (l : List Char) (i : Nat) (h : rfindNewline l = some i) :
    ∀ j, i < j → l.get? j ≠ some '\n' := by
  induction l generalizing i with
  | nil => simp [rfindNewline] at h
  | cons c rest ih =>
    simp only [rfindNewline] at h
    cases hr : rfindNewline rest with
    | some k =>
      rw [hr] at h
      simp only [Option.some.injEq] at h
      subst h
      intro j hj
      cases j with
      | zero => omega
      | succ j' =>
        have := ih k hr j' (by omega)
        simpa using this
    | none =>
      rw [hr] at h
      have hrest : '\n' ∉ rest := (rfindNewline_eq_none_iff rest).mp hr
      by_cases hc : c = '\n'
      · rw [if_pos hc] at h
        injection h with h
        subst h
        intro j hj
        cases j with
        | zero => omega
        | succ j' =>
          simp only [List.get?_cons_succ]
          intro hget
          exact hrest (List.get?_mem hget)
      · simp [hc] at h

theorem rfindNewline_lt_length (l : List Char) (i : Nat) (h : rfindNewline l = some i) :
    i < l.length := by
  have := rfindNewline_get l i h
  rw [List.get?_eq_some] at this
  exact this.1

theorem rfindNewline_isSome (l : List Char) (h : '\n' ∈ l) :
    ∃ i, rfindNewline l = some i := by
  cases hr : rfindNewline l with
  | none => exact absurd ((rfindNewline_eq_none_iff l).mp hr) (by simpa using h)
  | some i => exact ⟨i, rfl⟩

theorem rfindNewline_eq_none (l : List Char) (h : '\n' ∉ l) : rfindNewline l = none :=
  (rfindNewline_eq_none_iff l).mpr h

-- Basic facts about `chunkStep` and the loop.

theorem chunkStep_spec (cs : Nat) (b : List Char) :
    (chunkStep cs b).1.flatten ++ (chunkStep cs b).2 = b := by
  unfold chunkStep
  cases h : rfindNewline b with
  | some i => simp
  | none =>
    by_cases hl : 2 * cs < b.length <;> simp [hl]

theorem chunkStep_emitted_ne_nil (cs : Nat) (hcs : 0 < cs) (b : List Char) :
    ∀ c ∈ (chunkStep cs b).1, c ≠ [] := by
  unfold chunkStep
  cases h : rfindNewline b with
  | some i =>
    have hi : i < b.length := rfindNewline_lt_length b i h
    intro c hc
    simp only [List.mem_singleton] at hc
    subst hc
    have : (b.take (i + 1)).length = i + 1 := by
      rw [List.length_take]; omega
    intro hnil
    rw [hnil] at this
    simp at this
  | none =>
    by_cases hl : 2 * cs < b.length
    · intro c hc
      simp only [hl, if_pos, List.mem_singleton] at hc
      subst hc
      have : (b.take cs).length = cs := by
        rw [List.length_take]; omega
      intro hnil
      rw [hnil] at this
      simp at this
      omega
    · intro c hc
      simp [hl] at hc

theorem take_ne_nil_of_pos {α : Type} (cs : Nat) (hcs : 0 < cs) (l : List α) (hl : l ≠ []) :
    l.take cs ≠ [] := by
  cases l with
  | nil => exact absurd rfl hl
  | cons a t =>
    cases cs with
    | zero => omega
    | succ n => simp

theorem chunksAuxF_stop (cs fuel : Nat) (rest buffer : List Char)
    (h : rest.take cs = []) : chunksAuxF cs fuel rest buffer = [buffer] := by
  cases fuel with
  | zero => rfl
  | succ f => simp [chunksAuxF, h]

theorem chunksAuxF_step (cs fuel : Nat) (rest buffer : List Char)
    (hf : 0 < fuel) (h : rest.take cs ≠ []) :
    chunksAuxF cs fuel rest buffer =
      (chunkStep cs (buffer ++ rest.take cs)).1 ++
        chunksAuxF cs (fuel - 1) (rest.drop cs)
          (chunkStep cs (buffer ++ rest.take cs)).2 := by
  cases fuel with
  | zero => omega
  | succ f => simp [chunksAuxF, h]

theorem chunksAuxF_ne_nil (cs fuel : Nat) (rest buffer : List Char) :
    chunksAuxF cs fuel rest buffer ≠ [] := by
  induction fuel generalizing rest buffer with
  | zero => simp [chunksAuxF]
  | succ f ih =>
    by_cases h : rest.take cs = []
    · simp [chunksAuxF, h]
    · rw [chunksAuxF_step cs (f + 1) rest buffer (by omega) h]
      simp only [ne_eq, List.append_eq_nil]
      intro ⟨_, h2⟩
      exact ih _ _ h2

theorem chunksAuxF_join (cs : Nat) (hcs : 0 < cs) :
    ∀ fuel rest buffer, rest.length ≤ fuel →
      (chunksAuxF cs fuel rest buffer).flatten = buffer ++ rest := by
  intro fuel
  induction fuel with
  | zero =>
    intro rest buffer hlen
    have : rest = [] := by
      cases rest with
      | nil => rfl
      | cons a t => simp at hlen
    subst this
    simp [chunksAuxF]
  | succ f ih =>
    intro rest buffer hlen
    by_cases h : rest.take cs = []
    · have hrest : rest = [] := by
        rcases List.take_eq_nil_iff.mp h with hc | hr
        · omega
        · exact hr
      subst hrest
      simp [chunksAuxF_stop]
    · rw [chunksAuxF_step cs (f + 1) rest buffer (by omega) h]
      have hrne : rest ≠ [] := by
        intro hr; subst hr; simp at h
      have hrlen : 0 < rest.length := List.length_pos.mpr hrne
      have hdrop : (rest.drop cs).length ≤ f := by
        rw [List.length_drop]; omega
      rw [List.flatten_append]
      have hf1 : f + 1 - 1 = f := by omega
      rw [hf1, ih (rest.drop cs) _ hdrop, ← List.append_assoc,
        chunkStep_spec, List.append_assoc, List.take_append_drop]

theorem chunksAuxF_step_grow (cs fuel : Nat) (rest buffer : List Char)
    (hf : 0 < fuel) (h1 : rest.take cs ≠ [])
    (h2 : rfindNewline (buffer ++ rest.take cs) = none)
    (h3 : ¬ 2 * cs < (buffer ++ rest.take cs).length) :
    chunksAuxF cs fuel rest buffer =
      chunksAuxF cs (fuel - 1) (rest.drop cs) (buffer ++ rest.take cs) := by
  rw [chunksAuxF_step cs fuel rest buffer hf h1]
  simp only [chunkStep, h2]
  rw [if_neg h3]
  simp

theorem chunksAuxF_step_force (cs fuel : Nat) (rest buffer : List Char)
    (hf : 0 < fuel) (h1 : rest.take cs ≠ [])
    (h2 : rfindNewline (buffer ++ rest.take cs) = none)
    (h3 : 2 * cs < (buffer ++ rest.take cs).length) :
    chunksAuxF cs fuel rest buffer =
      (buffer ++ rest.take cs).take cs ::
        chunksAuxF cs (fuel - 1) (rest.drop cs) ((buffer ++ rest.take cs).drop cs) := by
  rw [chunksAuxF_step cs fuel rest buffer hf h1]
  simp only [chunkStep, h2]
  rw [if_pos h3]
  simp

theorem chunksAuxF_dropLast_ne_nil (cs : Nat) (hcs : 0 < cs) :
    ∀ fuel rest buffer, ∀ c ∈ (chunksAuxF cs fuel rest buffer).dropLast, c ≠ [] := by
  intro fuel
  induction fuel with
  | zero => intro rest buffer c hc; simp [chunksAuxF] at hc
  | succ f ih =>
    intro rest buffer c hc
    by_cases h : rest.take cs = []
    · rw [chunksAuxF_stop _ _ _ _ h] at hc
      simp at hc
    · rw [chunksAuxF_step cs (f + 1) rest buffer (by omega) h] at hc
      simp only [Nat.add_sub_cancel] at hc
      rw [List.dropLast_append_of_ne_nil _ (chunksAuxF_ne_nil cs f _ _)] at hc
      rcases List.mem_append.mp hc with hm | hm
      · exact chunkStep_emitted_ne_nil cs hcs _ c hm
      · exact ih _ _ c hm

-- Claim theorems for the chunker.

/-- Claim C1: for every input text and every positive target chunk size,
concatenating in order all chunks produced by `read_in_chunks` reproduces
the input text exactly. -/
theorem c1_chunk_roundtrip (text : List Char) (chunk_size : Nat)
    (hcs : 0 < chunk_size) :
    (read_in_chunks text chunk_size).flatten = text := by
  unfold read_in_chunks
  simpa using chunksAuxF_join chunk_size hcs text.length text [] (le_refl _)

theorem c1_chunk_roundtrip_witness :
    0 < 2 ∧ (read_in_chunks ['a', 'b', '\n', 'c'] 2).flatten = ['a', 'b', '\n', 'c'] :=
  ⟨by decide, c1_chunk_roundtrip ['a', 'b', '\n', 'c'] 2 (by decide)⟩

/-- Claim C4: whenever the accumulation buffer contains at least one newline
after a block is appended, the loop step emits everything up to and
including the last newline in the buffer as the chunk: there is an index
`i` holding a newline with no newline at any later index, the emitted
chunk is exactly `buffer.take (i + 1)` (the boundary immediately after the
last newline), and the remainder `buffer.drop (i + 1)` stays in the buffer. -/
theorem c4_boundary_after_last_newline (chunk_size : Nat) (buffer : List Char)
    (h : '\n' ∈ buffer) :
    ∃ i, buffer.get? i = some '\n' ∧
      (∀ j, i < j → buffer.get? j ≠ some '\n') ∧
      chunkStep chunk_size buffer = ([buffer.take (i + 1)], buffer.drop (i + 1)) := by
  obtain ⟨i, hi⟩ := rfindNewline_isSome buffer h
  exact ⟨i, rfindNewline_get buffer i hi, rfindNewline_last buffer i hi,
    by simp [chunkStep, hi]⟩

theorem c4_boundary_after_last_newline_witness :
    '\n' ∈ ['a', 'b', '\n', 'c', 'd', '\n', 'e', 'f'] ∧
      ∃ i, (['a', 'b', '\n', 'c', 'd', '\n', 'e', 'f'] : List Char).get? i = some '\n' ∧
        (∀ j, i < j →
          (['a', 'b', '\n', 'c', 'd', '\n', 'e', 'f'] : List Char).get? j ≠ some '\n') ∧
        chunkStep 4 ['a', 'b', '\n', 'c', 'd', '\n', 'e', 'f'] =
          ([(['a', 'b', '\n', 'c', 'd', '\n', 'e', 'f'] : List Char).take (i + 1)],
            (['a', 'b', '\n', 'c', 'd', '\n', 'e', 'f'] : List Char).drop (i + 1)) :=
  ⟨by decide, c4_boundary_after_last_newline 4 ['a', 'b', '\n', 'c', 'd', '\n', 'e', 'f']
    (by decide)⟩

/-- Claim C6 counterexample: the non-empty source "a\n" with chunk size 1
yields the chunks ["a\n", ""]: the final chunk is the empty string even
though the source was non-empty and a chunk had already been emitted
(line 110 yields the buffer unconditionally once the source is exhausted). -/
theorem c6_empty_final_chunk_counterexample :
    read_in_chunks ['a', '\n'] 1 = [['a', '\n'], []] ∧
      ([] : List Char) ∈ read_in_chunks ['a', '\n'] 1 ∧
      (['a', '\n'] : List Char) ≠ [] := by
  decide

/-- Claim C6 (amended): an empty source yields exactly one empty chunk, and
no chunk other than the final one is ever empty; however the final chunk
may be the empty string also for a non-empty source, namely whenever the
buffer is empty when the source is exhausted (e.g. a source whose last
character is a newline that was already emitted with the previous chunk). -/
theorem c6_empty_chunks_amended (text : List Char) (chunk_size : Nat)
    (hcs : 0 < chunk_size) :
    read_in_chunks [] chunk_size = [[]] ∧
      ∀ c ∈ (read_in_chunks text chunk_size).dropLast, c ≠ [] := by
  constructor
  · simp [read_in_chunks, chunksAuxF]
  · exact fun c hc =>
      chunksAuxF_dropLast_ne_nil chunk_size hcs text.length text [] c hc

theorem c6_empty_chunks_amended_witness :
    0 < 1 ∧ (read_in_chunks [] 1 = [[]] ∧
      ∀ c ∈ (read_in_chunks ['a', '\n'] 1).dropLast, c ≠ []) :=
  ⟨by decide, c6_empty_chunks_amended ['a', '\n'] 1 (by decide)⟩

/-- Claim C5: for an input of length `5 * chunk_size` with no newline, the
chunks are the first, second and third `chunk_size`-sized slices followed by
the remainder (of length `2 * chunk_size`): all chunks except the last have
length exactly `chunk_size`, and the last is the final remainder. -/
theorem c5_forced_split_determinism (chunk_size : Nat) (text : List Char)
    (hcs : 0 < chunk_size) (hlen : text.length = 5 * chunk_size)
    (hnl : '\n' ∉ text) :
    read_in_chunks text chunk_size =
      [text.take chunk_size, (text.drop chunk_size).take chunk_size,
        (text.drop (2 * chunk_size)).take chunk_size, text.drop (3 * chunk_size)] ∧
      (read_in_chunks text chunk_size).map List.length =
        [chunk_size, chunk_size, chunk_size, 2 * chunk_size] := by
  set c := chunk_size with hc
  set T := text with hT
  have hnosub : ∀ l : List Char, l ⊆ T → rfindNewline l = none := fun l hs =>
    rfindNewline_eq_none l fun hm => hnl (hs hm)
  have hTne : T ≠ [] := by
    intro he
    rw [he] at hlen
    simp at hlen
    omega
  have hdne : ∀ k : Nat, k < 5 * c → T.drop k ≠ [] := by
    intro k hk
    apply List.length_pos.mp
    rw [List.length_drop, hlen]
    omega
  have e1 : chunksAuxF c (5 * c) T [] =
      chunksAuxF c (5 * c - 1) (T.drop c) (T.take c) := by
    rw [chunksAuxF_step_grow c (5 * c) T [] (by omega)
      (take_ne_nil_of_pos c hcs T hTne)
      (hnosub _ (by simpa using List.take_subset c T))
      (by simp only [List.nil_append, List.length_take, hlen]; omega)]
    rw [List.nil_append]
  have e2 : chunksAuxF c (5 * c - 1) (T.drop c) (T.take c) =
      chunksAuxF c (5 * c - 2) (T.drop (2 * c)) (T.take (2 * c)) := by
    rw [chunksAuxF_step_grow c (5 * c - 1) (T.drop c) (T.take c) (by omega)
      (take_ne_nil_of_pos c hcs (T.drop c) (hdne c (by omega)))
      (hnosub _ (List.append_subset.mpr ⟨List.take_subset c T,
        (List.take_subset c (T.drop c)).trans (List.drop_subset c T)⟩))
      (by simp only [List.length_append, List.length_take, List.length_drop, hlen]; omega)]
    rw [← List.take_add, List.drop_drop,
      (show c + c = 2 * c by omega), (show 5 * c - 1 - 1 = 5 * c - 2 by omega)]
  have e3 : chunksAuxF c (5 * c - 2) (T.drop (2 * c)) (T.take (2 * c)) =
      T.take c ::
        chunksAuxF c (5 * c - 3) (T.drop (3 * c)) ((T.drop c).take (2 * c)) := by
    rw [chunksAuxF_step_force c (5 * c - 2) (T.drop (2 * c)) (T.take (2 * c)) (by omega)
      (take_ne_nil_of_pos c hcs (T.drop (2 * c)) (hdne (2 * c) (by omega)))
      (hnosub _ (List.append_subset.mpr ⟨List.take_subset (2 * c) T,
        (List.take_subset c (T.drop (2 * c))).trans (List.drop_subset (2 * c) T)⟩))
      (by simp only [List.length_append, List.length_take, List.length_drop, hlen]; omega)]
    rw [← List.take_add, (show 2 * c + c = 3 * c by omega), List.take_take,
      (show min c (3 * c) = c by omega), List.drop_take,
      (show 3 * c - c = 2 * c by omega), List.drop_drop,
      (show 2 * c + c = 3 * c by omega), (show 5 * c - 2 - 1 = 5 * c - 3 by omega)]
  have e4 : chunksAuxF c (5 * c - 3) (T.drop (3 * c)) ((T.drop c).take (2 * c)) =
      (T.drop c).take c ::
        chunksAuxF c (5 * c - 4) (T.drop (4 * c)) ((T.drop (2 * c)).take (2 * c)) := by
    have hb4 : (T.drop c).take (2 * c) ++ (T.drop (3 * c)).take c =
        (T.drop c).take (3 * c) := by
      rw [(show T.drop (3 * c) = (T.drop c).drop (2 * c) by
        rw [List.drop_drop]; congr 1; omega), ← List.take_add]
      congr 1
      omega
    rw [chunksAuxF_step_force c (5 * c - 3) (T.drop (3 * c)) ((T.drop c).take (2 * c))
      (by omega)
      (take_ne_nil_of_pos c hcs (T.drop (3 * c)) (hdne (3 * c) (by omega)))
      (hnosub _ (List.append_subset.mpr
        ⟨(List.take_subset (2 * c) (T.drop c)).trans (List.drop_subset c T),
          (List.take_subset c (T.drop (3 * c))).trans (List.drop_subset (3 * c) T)⟩))
      (by simp only [List.length_append, List.length_take, List.length_drop, hlen]; omega)]
    rw [hb4, List.take_take, (show min c (3 * c) = c by omega), List.drop_take,
      (show 3 * c - c = 2 * c by omega)]
    simp only [List.drop_drop]
    rw [(show c + c = 2 * c by omega), (show 3 * c + c = 4 * c by omega),
      (show 5 * c - 3 - 1 = 5 * c - 4 by omega)]
  have e5 : chunksAuxF c (5 * c - 4) (T.drop (4 * c)) ((T.drop (2 * c)).take (2 * c)) =
      (T.drop (2 * c)).take c ::
        chunksAuxF c (5 * c - 5) (T.drop (5 * c)) (T.drop (3 * c)) := by
    have hb5 : (T.drop (2 * c)).take (2 * c) ++ (T.drop (4 * c)).take c =
        (T.drop (2 * c)).take (3 * c) := by
      rw [(show T.drop (4 * c) = (T.drop (2 * c)).drop (2 * c) by
        rw [List.drop_drop]; congr 1; omega), ← List.take_add]
      congr 1
      omega
    rw [chunksAuxF_step_force c (5 * c - 4) (T.drop (4 * c)) ((T.drop (2 * c)).take (2 * c))
      (by omega)
      (take_ne_nil_of_pos c hcs (T.drop (4 * c)) (hdne (4 * c) (by omega)))
      (hnosub _ (List.append_subset.mpr
        ⟨(List.take_subset (2 * c) (T.drop (2 * c))).trans (List.drop_subset (2 * c) T),
          (List.take_subset c (T.drop (4 * c))).trans (List.drop_subset (4 * c) T)⟩))
      (by simp only [List.length_append, List.length_take, List.length_drop, hlen]; omega)]
    rw [hb5, List.take_take, (show min c (3 * c) = c by omega), List.drop_take,
      (show 3 * c - c = 2 * c by omega)]
    simp only [List.drop_drop]
    rw [(show 2 * c + c = 3 * c by omega), (show 4 * c + c = 5 * c by omega),
      (show 5 * c - 4 - 1 = 5 * c - 5 by omega),
      List.take_of_length_le (show (T.drop (3 * c)).length ≤ 2 * c by
        rw [List.length_drop, hlen]; omega)]
  have e6 : chunksAuxF c (5 * c - 5) (T.drop (5 * c)) (T.drop (3 * c)) =
      [T.drop (3 * c)] := by
    apply chunksAuxF_stop
    rw [List.drop_eq_nil_of_le (by rw [hlen])]
    simp
  have emain : read_in_chunks T c =
      [T.take c, (T.drop c).take c, (T.drop (2 * c)).take c, T.drop (3 * c)] := by
    unfold read_in_chunks
    rw [hlen, e1, e2, e3, e4, e5, e6]
  refine ⟨emain, ?_⟩
  rw [emain]
  simp only [List.map_cons, List.map_nil, List.length_take, List.length_drop, hlen,
    List.cons.injEq, and_true]
  omega

theorem c5_forced_split_determinism_witness :
    read_in_chunks ['a', 'b', 'c', 'd', 'e'] 1 =
      [(['a', 'b', 'c', 'd', 'e'] : List Char).take 1,
        ((['a', 'b', 'c', 'd', 'e'] : List Char).drop 1).take 1,
        ((['a', 'b', 'c', 'd', 'e'] : List Char).drop (2 * 1)).take 1,
        (['a', 'b', 'c', 'd', 'e'] : List Char).drop (3 * 1)] ∧
      (read_in_chunks ['a', 'b', 'c', 'd', 'e'] 1).map List.length =
        [1, 1, 1, 2 * 1] :=
  c5_forced_split_determinism 1 ['a', 'b', 'c', 'd', 'e']
    (by decide) (by decide) (by decide)

-- Failure model of the source for `read_in_chunks` (lines 95-96, 111-113).
-- The whole `open`/read loop sits in one `try`: `open()` itself
-- (`FileNotFoundError`/`PermissionError`) fails before anything is yielded,
-- while a `UnicodeDecodeError` is raised by the `f.read` call that reaches
-- the undecodable bytes, after all chunks of the cleanly decoded part have
-- already been yielded.  Either way the handler logs and calls
-- `sys.exit(1)`.  A source is modelled as its cleanly decoded text plus the
-- way reading ends.

/-- How the source behaves: `readable b` decodes to the given text and, if
`b` is true, the read past its end raises `UnicodeDecodeError`;
`unopenable` covers a missing or permission-denied file, where `open`
itself raises. -/
inductive SourceCond where
  | readable (failsAfter : Bool)
  | unopenable
deriving DecidableEq

/-- The loop of `read_in_chunks` with a source that may raise on the read
following its cleanly decoded text.  Returns the yielded chunks and whether
the process exited with an error (`sys.exit(1)`). -/
def chunksAuxIOF (chunk_size : Nat) (failsAfter : Bool) :
    Nat → List Char → List Char → List (List Char) × Bool
  | 0, _, buffer => if failsAfter then ([], true) else ([buffer], false)
  | fuel + 1, rest, buffer =>
    if rest.take chunk_size = [] then
      if failsAfter then ([], true) else ([buffer], false)
    else
      ((chunkStep chunk_size (buffer ++ rest.take chunk_size)).1 ++
          (chunksAuxIOF chunk_size failsAfter fuel (rest.drop chunk_size)
            (chunkStep chunk_size (buffer ++ rest.take chunk_size)).2).1,
        (chunksAuxIOF chunk_size failsAfter fuel (rest.drop chunk_size)
          (chunkStep chunk_size (buffer ++ rest.take chunk_size)).2).2)

/-- `read_in_chunks` including its error handling (lines 95-113): the
chunks yielded before any source error, and whether the run died with
`sys.exit(1)`. -/
def read_in_chunks_io (cond : SourceCond) (text : List Char) (chunk_size : Nat) :
    List (List Char) × Bool :=
  match cond with
  | .unopenable => ([], true)
  | .readable failsAfter => chunksAuxIOF chunk_size failsAfter text.length text []

theorem chunksAuxIOF_false (cs : Nat) :
    ∀ fuel rest buffer, chunksAuxIOF cs false fuel rest buffer =
      (chunksAuxF cs fuel rest buffer, false) := by
  intro fuel
  induction fuel with
  | zero => intro rest buffer; rfl
  | succ f ih =>
    intro rest buffer
    by_cases h : rest.take cs = []
    · simp [chunksAuxIOF, chunksAuxF, h]
    · simp [chunksAuxIOF, chunksAuxF, h, ih]

theorem chunksAuxIOF_true (cs : Nat) :
    ∀ fuel rest buffer, chunksAuxIOF cs true fuel rest buffer =
      ((chunksAuxF cs fuel rest buffer).dropLast, true) := by
  intro fuel
  induction fuel with
  | zero => intro rest buffer; simp [chunksAuxIOF, chunksAuxF]
  | succ f ih =>
    intro rest buffer
    by_cases h : rest.take cs = []
    · simp [chunksAuxIOF, chunksAuxF, h]
    · simp only [chunksAuxIOF, chunksAuxF, h, if_neg, ite_false, ih]
      rw [List.dropLast_append_of_ne_nil _ (chunksAuxF_ne_nil cs f _ _)]

/-- Claim C9 counterexample: a source whose decoded text is "a\n" followed
by undecodable bytes, read with chunk size 1: the chunk "a\n" is yielded
(and, in streaming mode, translated and written) before the decode error
stops the run, so an unreadable-source error does surface mid-stream after
chunks have been emitted, contradicting the claim. -/
theorem c9_midstream_decode_error_counterexample :
    read_in_chunks_io (.readable true) ['a', '\n'] 1 = ([['a', '\n']], true) ∧
      ([['a', '\n']] : List (List Char)) ≠ [] := by
  constructor
  · rw [show read_in_chunks_io (.readable true) ['a', '\n'] 1 =
      chunksAuxIOF 1 true 2 ['a', '\n'] [] from rfl, chunksAuxIOF_true]
    decide
  · decide

/-- Claim C9 (amended): a missing or permission-denied source fails at
`open`, before any chunk is produced: no chunks, error exit.  An
undecodable encoding, however, is only detected by the read that reaches
the bad bytes: every chunk of the cleanly decoded prefix except the final
buffer flush has already been yielded when the error stops the run with an
error exit.  A fully readable source yields all chunks and exits cleanly. -/
theorem c9_unreadable_source_amended (text : List Char) (chunk_size : Nat) :
    read_in_chunks_io .unopenable text chunk_size = ([], true) ∧
      read_in_chunks_io (.readable true) text chunk_size =
        ((read_in_chunks text chunk_size).dropLast, true) ∧
      read_in_chunks_io (.readable false) text chunk_size =
        (read_in_chunks text chunk_size, false) := by
  refine ⟨rfl, ?_, ?_⟩
  · rw [show read_in_chunks_io (.readable true) text chunk_size =
      chunksAuxIOF chunk_size true text.length text [] from rfl, chunksAuxIOF_true]
    rfl
  · rw [show read_in_chunks_io (.readable false) text chunk_size =
      chunksAuxIOF chunk_size false text.length text [] from rfl, chunksAuxIOF_false]
    rfl

-- Provider registry and model-name construction (lines 17-35, 72-90).

/-- One entry of `MODEL_PROVIDERS` (lines 17-35).  `sizes` is `[]` for
providers whose dict has no "sizes" key (helsinki). -/
structure ProviderSpec where
  name : String
  base_model : String
  base_path : String
  sizes : List String
deriving DecidableEq

/-- The `MODEL_PROVIDERS` registry (lines 17-35), as the ordered
association list of the Python dict. -/
def MODEL_PROVIDERS : List (String × ProviderSpec) :=
  [("helsinki", ⟨"Helsinki-NLP", "opus-mt-{source}-{target}",
      "Helsinki-NLP/opus-mt-{source}-{target}", []⟩),
   ("facebook", ⟨"Facebook", "m2m100", "facebook/m2m100-{size}", ["418M", "1.2B"]⟩),
   ("google", ⟨"Google", "mt5", "google/mt5-{size}", ["small", "base", "large"]⟩)]

/-- Single-pattern replacement on character lists, embedding Python
`str.format` on the registry's constant templates (each placeholder occurs
exactly once there, and `format` does not rescan substituted text, matched
here by continuing after `sub`).  `fuel ≥ l.length` makes the fuel-zero
branch unreachable with a non-empty list. -/
def replaceListF (pat sub : List Char) : Nat → List Char → List Char
  | 0, l => l
  | _ + 1, [] => []
  | fuel + 1, c :: rest =>
    if pat.isPrefixOf (c :: rest) ∧ pat ≠ [] then
      sub ++ replaceListF pat sub fuel (rest.drop (pat.length - 1))
    else
      c :: replaceListF pat sub fuel rest

/-- `template.format(key=value)` for a single `{key}` placeholder. -/
def pyFormat (template pat value : String) : String :=
  ⟨replaceListF pat.data value.data template.data.length template.data⟩

/-- The `ValueError`s raised by `get_model_name` (lines 75, 87, 90),
distinguished by their message. -/
inductive ModelError where
  | unknownProvider (provider : String)
  | invalidSize (provider : String) (size : String)
  | notConfigured (provider : String)
deriving DecidableEq

/-- Python truthiness of an optional string (`if not x`): `None` and the
empty string are both falsy. -/
def strTruthy : Option String → Bool
  | none => false
  | some s => if s = "" then false else true

/-- `get_model_name` (lines 72-90).  The helsinki branch formats
`f"{name}/{base_model}"` with the two language codes; the facebook/google
branch takes `sizes[0]` when `not size` (so also for `size = ""`), raises
for a size outside `sizes`, and otherwise formats `base_path` with the
size.  The common `return base_path.format(...)` after the `elif raise` is
written in both branches here.  `headD ""` embeds `sizes[0]`; every
registry entry reaching it has non-empty `sizes`. -/
def get_model_name (provider source_lang target_lang : String)
    (size : Option String) : Except ModelError String :=
  match MODEL_PROVIDERS.find? (fun e => decide (e.1 = provider)) with
  | none => .error (.unknownProvider provider)
  | some e =>
    let provider_config := e.2
    if provider = "helsinki" then
      .ok (pyFormat (pyFormat (provider_config.name ++ "/" ++ provider_config.base_model)
        "{source}" source_lang) "{target}" target_lang)
    else if provider = "facebook" ∨ provider = "google" then
      if strTruthy size = false then
        .ok (pyFormat provider_config.base_path "{size}" (provider_config.sizes.headD ""))
      else if size.getD "" ∈ provider_config.sizes then
        .ok (pyFormat provider_config.base_path "{size}" (size.getD ""))
      else
        .error (.invalidSize provider (size.getD ""))
    else
      .error (.notConfigured provider)

/-- The model-name resolution step of `translate_text` (lines 144-151):
`if not model_name:` — `None` and `""` are both falsy — construct the name
via `get_model_name`, where a `ValueError` makes `translate_text` return
`None` (failure); otherwise the given name is kept. -/
def resolve_model_name (model_name : Option String)
    (provider source_lang target_lang : String) (model_size : Option String) :
    Option String :=
  if strTruthy model_name then model_name
  else
    match get_model_name provider source_lang target_lang model_size with
    | .ok m => some m
    | .error _ => none

-- The streaming loop of `main` (lines 304-322).

/-- Python truthiness of `translate_text`'s result (`if translated_text:`,
line 318): `None` (failure) and the empty string are both falsy. -/
def resultTruthy : Option (List Char) → Bool
  | none => false
  | some t => if t = [] then false else true

/-- The streaming loop of `main` (lines 307-322): iterate the chunks in
source order; call `translate_text` (`backend`) on each; a truthy result
is written to the output file immediately and the loop continues; anything
else logs and calls `sys.exit(1)`.  Returns the texts written to the sink
in order, the chunks passed to the backend in order, and whether the run
completed without error exit. -/
def stream_translate (backend : List Char → Option (List Char)) :
    List (List Char) → List (List Char) × List (List Char) × Bool
  | [] => ([], [], true)
  | chunk :: rest =>
    if resultTruthy (backend chunk) then
      ((backend chunk).getD [] :: (stream_translate backend rest).1,
        chunk :: (stream_translate backend rest).2.1,
        (stream_translate backend rest).2.2)
    else
      ([], [chunk], false)

theorem stream_translate_all_ok (backend : List Char → Option (List Char)) :
    ∀ chunks : List (List Char), (∀ c ∈ chunks, resultTruthy (backend c) = true) →
      stream_translate backend chunks =
        (chunks.map fun c => (backend c).getD [], chunks, true) := by
  intro chunks
  induction chunks with
  | nil => intro _; rfl
  | cons c rest ih =>
    intro hall
    have hc := hall c (by simp)
    have hrest := ih fun x hx => hall x (List.mem_cons_of_mem _ hx)
    simp [stream_translate, hc, hrest]

/-- Claim C2: in streaming mode chunks are translated and written to the
sink strictly in source order with exactly one backend call per processed
chunk (first conjunct: an all-success run calls the backend once per chunk
in order and writes each translation in order), and for a 3-chunk input
where chunk 2's translation fails: chunk 1's translation has been written
and is not rolled back, exactly chunks 1 and 2 were attempted, chunk 3 is
never attempted, and the run ends with a non-zero exit (second conjunct). -/
theorem c2_streaming_order_and_failure_stop
    (backend : List Char → Option (List Char)) (c1 c2 c3 t1 : List Char)
    (h1 : backend c1 = some t1) (h1ne : t1 ≠ [])
    (h2 : resultTruthy (backend c2) = false) :
    (∀ chunks : List (List Char), (∀ c ∈ chunks, resultTruthy (backend c) = true) →
      stream_translate backend chunks =
        (chunks.map fun c => (backend c).getD [], chunks, true)) ∧
    stream_translate backend [c1, c2, c3] = ([t1], [c1, c2], false) := by
  refine ⟨stream_translate_all_ok backend, ?_⟩
  have ht1 : resultTruthy (backend c1) = true := by
    rw [h1]
    simp [resultTruthy, h1ne]
  simp only [stream_translate, ht1, h2]
  simp [h1]

theorem c2_streaming_order_and_failure_stop_witness :
    ((fun c => if c = ['a'] then some ['X'] else none) ['a'] = some ['X'] ∧
      (['X'] : List Char) ≠ [] ∧
      resultTruthy ((fun c => if c = ['a'] then some ['X'] else none) ['b']) = false) ∧
    ((∀ chunks : List (List Char),
      (∀ c ∈ chunks,
        resultTruthy ((fun c => if c = ['a'] then some ['X'] else none) c) = true) →
      stream_translate (fun c => if c = ['a'] then some ['X'] else none) chunks =
        (chunks.map fun c =>
          ((fun c => if c = ['a'] then some ['X'] else none) c).getD [], chunks, true)) ∧
      stream_translate (fun c => if c = ['a'] then some ['X'] else none)
        [['a'], ['b'], ['c']] = ([['X']], [['a'], ['b']], false)) :=
  ⟨⟨by decide, by decide, by decide⟩,
    c2_streaming_order_and_failure_stop (fun c => if c = ['a'] then some ['X'] else none)
      ['a'] ['b'] ['c'] ['X'] (by decide) (by decide) (by decide)⟩

-- Layered configuration (lines 45-69, 215-292).

/-- The configuration keys `main` reads from the merged config dict
(lines 237, 243, 249, 256, 267, 273, 280), each optional per file. -/
structure ConfigFile where
  default_source_lang : Option String
  default_target_lang : Option String
  default_model : Option String
  default_provider : Option String
  max_length : Option Int
  log_level : Option String
  log_format : Option String
deriving DecidableEq

/-- The empty dict `{}` (a missing or unparsable config file contributes
nothing, line 47 with lines 50, 60). -/
def emptyConfig : ConfigFile := ⟨none, none, none, none, none, none, none⟩

/-- `dict.update` for one key: a key present in the newer mapping
overwrites the older value, a key absent there keeps it. -/
def updateOpt {α : Type} (old new : Option α) : Option α :=
  match new with
  | some v => some v
  | none => old

/-- `load_config` (lines 45-69): start from `{}`, `update` with the user
config, then `update` with the project config, so per key the project
value overrides the user value. -/
def load_config (user project : Option ConfigFile) : ConfigFile :=
  let u := user.getD emptyConfig
  let p := project.getD emptyConfig
  { default_source_lang := updateOpt u.default_source_lang p.default_source_lang
    default_target_lang := updateOpt u.default_target_lang p.default_target_lang
    default_model := updateOpt u.default_model p.default_model
    default_provider := updateOpt u.default_provider p.default_provider
    max_length := updateOpt u.max_length p.max_length
    log_level := updateOpt u.log_level p.log_level
    log_format := updateOpt u.log_format p.log_format }

/-- The command-line flags of `main` that feed the effective settings
(lines 234-282); `none` means the flag was not given. -/
structure CliArgs where
  source_lang : Option String
  target_lang : Option String
  model : Option String
  provider : Option String
  model_size : Option String
  max_length : Option Int
  log_level : Option String
  log_format : Option String
deriving DecidableEq

/-- A command line with no settings-related flags. -/
def noCli : CliArgs := ⟨none, none, none, none, none, none, none, none⟩

/-- The effective settings `main` runs with (the `args` fields after
`parser.parse_args()` plus the line-286 log-level normalization). -/
structure Settings where
  source_lang : String
  target_lang : String
  model : Option String
  provider : String
  model_size : Option String
  max_length : Int
  log_level : String
  log_format : String
deriving DecidableEq

/-- The hard-coded `--log-format` default (line 280). -/
def defaultLogFormat : String := "%(asctime)s - %(levelname)s - %(message)s"

/-- Python `str.upper` (used by `type=str.upper` on line 272 and
`args.log_level.upper()` on line 286), as a per-character map; the log
level values involved are ASCII, where the two agree. -/
def strUpper (s : String) : String := ⟨s.data.map Char.toUpper⟩

/-- The settings resolution of `main` (lines 215-292): each argparse flag
defaults to `config.get(key, hard_default)` over the merged config, and a
flag given on the command line wins.  `--log-level` has `type=str.upper`
(line 272), which argparse applies both to a command-line value and to the
(always string) default, and line 286 upper-cases once more (idempotent) -
so the effective log level is upper-cased whichever layer supplied it.
`--model-size` has no config-supplied default (lines 259-263).  `choices`
validation of `--provider`/`--log-level` is outside the claims and not
modelled. -/
def resolve_settings (user project : Option ConfigFile) (cli : CliArgs) : Settings :=
  let config := load_config user project
  { source_lang := cli.source_lang.getD (config.default_source_lang.getD "de")
    target_lang := cli.target_lang.getD (config.default_target_lang.getD "en")
    model := updateOpt config.default_model cli.model
    provider := cli.provider.getD (config.default_provider.getD "helsinki")
    model_size := cli.model_size
    max_length := cli.max_length.getD (config.max_length.getD 512)
    log_level := strUpper (cli.log_level.getD (config.log_level.getD "INFO"))
    log_format := cli.log_format.getD (config.log_format.getD defaultLogFormat) }

/-- The spec's resolution rule, stated in its own words for comparison:
strict last-writer-wins precedence
defaults < user config file < project config file < CLI flag. -/
def lastWriterWins {α : Type} (dflt : α) (user project cli : Option α) : α :=
  match cli with
  | some v => v
  | none =>
    match project with
    | some v => v
    | none =>
      match user with
      | some v => v
      | none => dflt

theorem getD_updateOpt_eq_lastWriterWins {α : Type} (dflt : α) (uf pf cf : Option α) :
    cf.getD ((updateOpt uf pf).getD dflt) = lastWriterWins dflt uf pf cf := by
  cases cf <;> cases pf <;> cases uf <;> rfl

/-- Claim C3 counterexample: with no config files and only
`--log-level debug` on the command line, the effective log level is
"DEBUG", not the flag's value "debug" (argparse `type=str.upper`,
line 272, and the second `.upper()` on line 286), so a key present in a
CLI flag does not always take the flag's value unchanged. -/
theorem c3_log_level_upper_counterexample :
    (resolve_settings none none { noCli with log_level := some "debug" }).log_level
        = "DEBUG" ∧
      (resolve_settings none none { noCli with log_level := some "debug" }).log_level
        ≠ "debug" := by
  constructor <;> decide

/-- Claim C3 (amended): every effective setting is resolved by strict
last-writer-wins precedence defaults < user config file < project config
file < CLI flags, with the hard-coded defaults source_lang "de",
target_lang "en", provider "helsinki", max_length 512, log_level "INFO"
(and log_format's default format string; the model override has default
`None`; model_size comes from the CLI only).  Values are taken verbatim
from the winning layer, except log_level, which is additionally
upper-cased whichever layer supplied it. -/
theorem c3_config_precedence_amended (user project : Option ConfigFile)
    (cli : CliArgs) :
    (resolve_settings user project cli).source_lang =
      lastWriterWins "de" (user.getD emptyConfig).default_source_lang
        (project.getD emptyConfig).default_source_lang cli.source_lang ∧
    (resolve_settings user project cli).target_lang =
      lastWriterWins "en" (user.getD emptyConfig).default_target_lang
        (project.getD emptyConfig).default_target_lang cli.target_lang ∧
    (resolve_settings user project cli).provider =
      lastWriterWins "helsinki" (user.getD emptyConfig).default_provider
        (project.getD emptyConfig).default_provider cli.provider ∧
    (resolve_settings user project cli).max_length =
      lastWriterWins 512 (user.getD emptyConfig).max_length
        (project.getD emptyConfig).max_length cli.max_length ∧
    (resolve_settings user project cli).log_level =
      strUpper (lastWriterWins "INFO" (user.getD emptyConfig).log_level
        (project.getD emptyConfig).log_level cli.log_level) ∧
    (resolve_settings user project cli).log_format =
      lastWriterWins defaultLogFormat (user.getD emptyConfig).log_format
        (project.getD emptyConfig).log_format cli.log_format ∧
    (resolve_settings user project cli).model =
      updateOpt (updateOpt (user.getD emptyConfig).default_model
        (project.getD emptyConfig).default_model) cli.model ∧
    (resolve_settings user project cli).model_size = cli.model_size := by
  simp [resolve_settings, load_config, getD_updateOpt_eq_lastWriterWins]

-- Claims about model-name resolution.

/-- Claim C7 counterexample: `translate_text` given the explicit model
name `""` does not use it unchanged: `if not model_name` (line 145) treats
the empty string as absent, the registry/template logic is consulted, and
the helsinki name is resolved instead of `""`. -/
theorem c7_empty_explicit_name_counterexample :
    resolve_model_name (some "") "helsinki" "de" "en" none =
        some "Helsinki-NLP/opus-mt-de-en" ∧
      resolve_model_name (some "") "helsinki" "de" "en" none ≠ some "" := by
  constructor <;> decide

/-- Claim C7 (amended): whenever a non-empty explicit model name is
provided, it is used unchanged as the resolved model identifier for every
provider, language pair and size, and the provider registry/template logic
is not consulted (an empty explicit name, however, is treated as absent). -/
theorem c7_explicit_name_wins_amended
    (m provider source_lang target_lang : String) (size : Option String)
    (hm : m ≠ "") :
    resolve_model_name (some m) provider source_lang target_lang size = some m := by
  simp [resolve_model_name, strTruthy, hm]

theorem c7_explicit_name_wins_amended_witness :
    ("foo/bar" : String) ≠ "" ∧
      resolve_model_name (some "foo/bar") "nonsense" "xx" "yy" (some "999X") =
        some "foo/bar" :=
  ⟨by decide, c7_explicit_name_wins_amended "foo/bar" "nonsense" "xx" "yy"
    (some "999X") (by decide)⟩

/-- Claim C8 counterexample: the supplied size `""` is not in facebook's
permitted-size set, yet `get_model_name` does not fail with an
invalid-size error: `if not size` (line 84) treats it as absent and falls
back to the first permitted size. -/
theorem c8_empty_size_counterexample :
    get_model_name "facebook" "de" "en" (some "") = .ok "facebook/m2m100-418M" ∧
      ("" : String) ∉ ["418M", "1.2B"] :=
  ⟨rfl, by decide⟩

/-- Claim C8 (amended): an unknown provider fails with the
unknown-provider error for every size; for the size-parameterized
providers a supplied non-empty size outside the permitted-size set fails
with the invalid-size error and is never clamped; an absent (or empty)
size falls back to the first (smallest) permitted size; and when model
resolution fails, every `translate_text` call fails, so the streaming run
stops on its first chunk with an error exit and nothing written to the
sink. -/
theorem c8_resolution_errors_amended (p s t sz : String) (chunk : List Char)
    (chunks : List (List Char))
    (hp1 : p ≠ "helsinki") (hp2 : p ≠ "facebook") (hp3 : p ≠ "google")
    (hsz : sz ≠ "") (hfb : sz ∉ ["418M", "1.2B"])
    (hg : sz ∉ ["small", "base", "large"]) :
    (∀ size : Option String,
      get_model_name p s t size = .error (.unknownProvider p)) ∧
      get_model_name "facebook" s t (some sz) = .error (.invalidSize "facebook" sz) ∧
      get_model_name "google" s t (some sz) = .error (.invalidSize "google" sz) ∧
      get_model_name "facebook" s t none = .ok "facebook/m2m100-418M" ∧
      get_model_name "google" s t none = .ok "google/mt5-small" ∧
      stream_translate (fun _ => none) (chunk :: chunks) = ([], [chunk], false) := by
  refine ⟨?_, ?_, ?_, rfl, rfl, rfl⟩
  · intro size
    simp [get_model_name, MODEL_PROVIDERS, List.find?, Ne.symm hp1, Ne.symm hp2,
      Ne.symm hp3]
  · simp [get_model_name, MODEL_PROVIDERS, List.find?, strTruthy, hsz, hfb]
  · simp [get_model_name, MODEL_PROVIDERS, List.find?, strTruthy, hsz, hg]

theorem c8_resolution_errors_amended_witness :
    (("openai" : String) ≠ "helsinki" ∧ ("openai" : String) ≠ "facebook" ∧
      ("openai" : String) ≠ "google" ∧ ("999X" : String) ≠ "" ∧
      ("999X" : String) ∉ ["418M", "1.2B"] ∧
      ("999X" : String) ∉ ["small", "base", "large"]) ∧
    ((∀ size : Option String,
      get_model_name "openai" "de" "en" size = .error (.unknownProvider "openai")) ∧
      get_model_name "facebook" "de" "en" (some "999X") =
        .error (.invalidSize "facebook" "999X") ∧
      get_model_name "google" "de" "en" (some "999X") =
        .error (.invalidSize "google" "999X") ∧
      get_model_name "facebook" "de" "en" none = .ok "facebook/m2m100-418M" ∧
      get_model_name "google" "de" "en" none = .ok "google/mt5-small" ∧
      stream_translate (fun _ => none) [['h']] = ([], [['h']], false)) :=
  ⟨⟨by decide, by decide, by decide, by decide, by decide, by decide⟩,
    c8_resolution_errors_amended "openai" "de" "en" "999X" ['h'] []
      (by decide) (by decide) (by decide) (by decide) (by decide) (by decide)⟩

/-- Claim C10: for the size-parameterized providers (facebook, google),
`get_model_name` with size `""` behaves exactly as with an absent size: it
returns the identifier built with the provider's first permitted size
instead of failing with an invalid-size error, even though `""` is not a
member of the permitted-size set. -/
theorem c10_empty_size_treated_as_absent (s t : String) :
    get_model_name "facebook" s t (some "") = get_model_name "facebook" s t none ∧
      get_model_name "facebook" s t (some "") = .ok "facebook/m2m100-418M" ∧
      get_model_name "google" s t (some "") = get_model_name "google" s t none ∧
      get_model_name "google" s t (some "") = .ok "google/mt5-small" ∧
      ("" : String) ∉ ["418M", "1.2B"] ∧ ("" : String) ∉ ["small", "base", "large"] :=
  ⟨rfl, rfl, rfl, rfl, by decide, by decide⟩
